import Mathlib

/-!
Shallow embedding of the mdns-rs DNS codec and service layer.

Rust `u8`/`u16`/`u32` values are modelled as `Nat` with explicit `% 2^w`
truncation at the points where the source casts (`as u8`, `as u16`) or
masks (`& 0xff`); on `Nat`, `x & 0xff` is `x % 256` and
`(hi << 8) | lo` with `lo < 256` is `hi * 256 + lo`, and we use the
arithmetic forms where the operands are known to be in byte range.
Rust `String`s are modelled by their UTF-8 byte sequences (`List Nat`).
A fallible Rust computation is modelled as `Except Fault a`, where
`Fault.err` is a returned `Error` value, `Fault.panic` is a Rust panic
(out-of-bounds index, `.unwrap()` on an `Err`, invalid UTF-8 passed to
`String::from_utf8(..).unwrap()`), and `Fault.diverge` is the fuel of a
possibly unbounded loop running out.  A `match e { Err(_) => .. }` in the
source catches only `Fault.err`; panics and divergence propagate.
-/

namespace Mdns

/-- Outcome classifier for embedded Rust code: a returned error value, a
panic, or exhaustion of the fuel bounding a potentially unbounded loop. -/
inductive Fault
  | err
  | panic
  | diverge
deriving DecidableEq

deriving instance DecidableEq for Except

/-- Result of running an embedded fallible computation. -/
abbrev Res (α : Type) := Except Fault α

/-- A byte buffer (each entry is a `u8`, i.e. `< 256` in well-formed data). -/
abbrev Bytes := List Nat

/-! ## dns/reader.rs — `Reader` -/

/-- `Reader` holds the message buffer and a cursor (`buffer_len` in the
source is always `buffer.len()`, so it is not modelled separately). -/
structure Reader where
  buffer : Bytes
  cursor : Nat
deriving DecidableEq

/-- is `l` well-formed UTF-8 (RFC 3629)?  Models the success condition of
`String::from_utf8(l.to_vec()).unwrap()`; on failure the source panics. -/
def utf8Cont (b : Nat) : Bool := 0x80 ≤ b && b ≤ 0xbf

def utf8Valid : List Nat → Bool
  | [] => true
  | b :: r =>
    if b ≤ 0x7f then utf8Valid r
    else
      match r with
      | [] => false
      | c1 :: r1 =>
        if 0xc2 ≤ b && b ≤ 0xdf then utf8Cont c1 && utf8Valid r1
        else
          match r1 with
          | [] => false
          | c2 :: r2 =>
            if b = 0xe0 then (0xa0 ≤ c1 && c1 ≤ 0xbf) && utf8Cont c2 && utf8Valid r2
            else if (0xe1 ≤ b && b ≤ 0xec) || b = 0xee || b = 0xef then
              utf8Cont c1 && utf8Cont c2 && utf8Valid r2
            else if b = 0xed then (0x80 ≤ c1 && c1 ≤ 0x9f) && utf8Cont c2 && utf8Valid r2
            else
              match r2 with
              | [] => false
              | c3 :: r3 =>
                if b = 0xf0 then
                  (0x90 ≤ c1 && c1 ≤ 0xbf) && utf8Cont c2 && utf8Cont c3 && utf8Valid r3
                else if 0xf1 ≤ b && b ≤ 0xf3 then
                  utf8Cont c1 && utf8Cont c2 && utf8Cont c3 && utf8Valid r3
                else if b = 0xf4 then
                  (0x80 ≤ c1 && c1 ≤ 0x8f) && utf8Cont c2 && utf8Cont c3 && utf8Valid r3
                else false

/-- `Reader::read_u8`.  The source guard is `buffer_len < cursor` (not
`<=`), so at `cursor == buffer_len` the guard passes and
`self.buffer[self.cursor]` panics with an out-of-bounds index. -/
def Reader.readU8 (r : Reader) : Res (Nat × Reader) :=
  if r.buffer.length < r.cursor then .error .err
  else if r.cursor < r.buffer.length then
    .ok (r.buffer.getD r.cursor 0, ⟨r.buffer, r.cursor + 1⟩)
  else .error .panic

/-- `Reader::read_bytes(buf)` with `buf.len() = n`: guard
`buffer_len < cursor + n`, then copy `buffer[cursor..cursor+n]`. -/
def Reader.readBytes (n : Nat) (r : Reader) : Res (Bytes × Reader) :=
  if r.buffer.length < r.cursor + n then .error .err
  else .ok ((r.buffer.drop r.cursor).take n, ⟨r.buffer, r.cursor + n⟩)

/-- `Reader::read_u16`: two bytes, `u16::from_be_bytes`. -/
def Reader.readU16 (r : Reader) : Res (Nat × Reader) :=
  match r.readBytes 2 with
  | .error e => .error e
  | .ok (bs, r1) => .ok (bs.getD 0 0 * 256 + bs.getD 1 0, r1)

/-- `Reader::read_u32`: four bytes, `u32::from_be_bytes`. -/
def Reader.readU32 (r : Reader) : Res (Nat × Reader) :=
  match r.readBytes 4 with
  | .error e => .error e
  | .ok (bs, r1) =>
    .ok (bs.getD 0 0 * 16777216 + bs.getD 1 0 * 65536 + bs.getD 2 0 * 256 + bs.getD 3 0, r1)

/-- `Reader::read_string_size`: same off-by-one guard as `read_u8`. -/
def Reader.readStringSize (r : Reader) : Res (Nat × Reader) :=
  if r.buffer.length < r.cursor then .error .err
  else if r.cursor < r.buffer.length then
    .ok (r.buffer.getD r.cursor 0, ⟨r.buffer, r.cursor + 1⟩)
  else .error .panic

/-- `Reader::read_string`: length byte, then that many bytes decoded as
UTF-8 (the `.unwrap()` panics on invalid UTF-8). -/
def Reader.readString (r : Reader) : Res (Bytes × Reader) :=
  match r.readStringSize with
  | .error e => .error e
  | .ok (strLen, r1) =>
    if r1.buffer.length < r1.cursor + strLen then .error .err
    else
      let strBytes := (r1.buffer.drop r1.cursor).take strLen
      if utf8Valid strBytes then .ok (strBytes, ⟨r1.buffer, r1.cursor + strLen⟩)
      else .error .panic

/-- `Reader::read_strings`: repeat `read_string_size` + bytes until a zero
length byte.  Each iteration advances the cursor by at least one byte, so
`buffer.length + 1` fuel always suffices; `.diverge` is unreachable then. -/
def Reader.readStrings (fuel : Nat) (r : Reader) : Res (List Bytes × Reader) :=
  match fuel with
  | 0 => .error .diverge
  | fuel + 1 =>
    match r.readStringSize with
    | .error e => .error e
    | .ok (strLen, r1) =>
      if strLen = 0 then .ok ([], r1)
      else if r1.buffer.length < r1.cursor + strLen then .error .err
      else
        let strBytes := (r1.buffer.drop r1.cursor).take strLen
        if utf8Valid strBytes then
          match Reader.readStrings fuel ⟨r1.buffer, r1.cursor + strLen⟩ with
          | .error e => .error e
          | .ok (strs, r2) => .ok (strBytes :: strs, r2)
        else .error .panic

/-- `if 0 < name.len() { name.push('.') } name.push_str(label)`. -/
def appendLabel (name lbl : Bytes) : Bytes :=
  if 0 < name.length then name ++ 46 :: lbl else name ++ lbl

/-- `Reader::read_name`.  The source loop performs no bounds check of its
own: `self.buffer[self.cursor]`, `self.buffer[self.cursor + 1]`, the label
slice and `&self.buffer[offset..]` all panic when out of range.  A
compression pointer recurses on a fresh reader over `buffer[offset..]`
with no traversal cap, so the recursion is genuinely unbounded; fuel is
consumed once per loop iteration and once per pointer follow, and a
`.diverge` result for every fuel value means the source never returns. -/
def Reader.readName (fuel : Nat) (r : Reader) (name : Bytes) : Res (Bytes × Reader) :=
  match fuel with
  | 0 => .error .diverge
  | fuel + 1 =>
    if r.cursor < r.buffer.length then
      let labelLen := r.buffer.getD r.cursor 0
      if labelLen = 0 then .ok (name, ⟨r.buffer, r.cursor + 1⟩)
      else if labelLen &&& 0xc0 = 0xc0 then
        if r.cursor + 1 < r.buffer.length then
          let offset := ((labelLen &&& 0x3f) <<< 8) ||| r.buffer.getD (r.cursor + 1) 0
          if offset ≤ r.buffer.length then
            match Reader.readName fuel ⟨r.buffer.drop offset, 0⟩ [] with
            | .ok (compressed, _) =>
              .ok (appendLabel name compressed, ⟨r.buffer, r.cursor + 2⟩)
            | .error e => .error e
          else .error .panic
        else .error .panic
      else
        if r.buffer.length < r.cursor + 1 + labelLen then .error .panic
        else
          let labelBytes := (r.buffer.drop (r.cursor + 1)).take labelLen
          if utf8Valid labelBytes then
            Reader.readName fuel ⟨r.buffer, r.cursor + 1 + labelLen⟩ (appendLabel name labelBytes)
          else .error .panic
    else .error .panic

/-! ## dns/class.rs and dns/typ.rs -/

def UNICAST_RESPONSE_MASK : Nat := 0x8000
def CLASS_MASK : Nat := 0x7fff

inductive Class
  | NONE
  | IN
deriving DecidableEq

def Class.fromValue (value : Nat) : Class :=
  match value with
  | 0x0001 => .IN
  | _ => .NONE

def Class.toValue : Class → Nat
  | .IN => 0x0001
  | .NONE => 0x0000

inductive Typ
  | NONE
  | A
  | NS
  | CNAME
  | SOA
  | PTR
  | MX
  | TXT
  | AAAA
  | SRV
  | NAPTR
  | OPT
  | ANY
  | NSEC
deriving DecidableEq

def Typ.fromValue (value : Nat) : Typ :=
  match value with
  | 0x0001 => .A
  | 0x0002 => .NS
  | 0x0005 => .CNAME
  | 0x0006 => .SOA
  | 0x000c => .PTR
  | 0x000f => .MX
  | 0x0010 => .TXT
  | 0x001c => .AAAA
  | 0x0021 => .SRV
  | 0x0023 => .NAPTR
  | 0x0029 => .OPT
  | 0x00ff => .ANY
  | 0x0027 => .NSEC
  | _ => .NONE

def Typ.toValue : Typ → Nat
  | .A => 0x0001
  | .NS => 0x0002
  | .CNAME => 0x0005
  | .SOA => 0x0006
  | .PTR => 0x000c
  | .MX => 0x000f
  | .TXT => 0x0010
  | .AAAA => 0x001c
  | .SRV => 0x0021
  | .NAPTR => 0x0023
  | .OPT => 0x0029
  | .ANY => 0x00ff
  | .NONE => 0x0000
  | .NSEC => 0x0027

/-! ## dns/writer.rs — `Writer` (its buffer is the `Bytes` value) -/

/-- `Writer::write_u8` (the argument is a `u8`; callers that cast write
the truncated value). -/
def Writer.writeU8 (buf : Bytes) (value : Nat) : Bytes := buf ++ [value]

/-- `Writer::write_u16`: pushes `(value >> 8) & 0xff` then `value & 0xff`. -/
def Writer.writeU16 (buf : Bytes) (value : Nat) : Bytes :=
  buf ++ [value / 256 % 256, value % 256]

/-- `Writer::write_u32`: four big-endian bytes. -/
def Writer.writeU32 (buf : Bytes) (value : Nat) : Bytes :=
  buf ++ [value / 16777216 % 256, value / 65536 % 256, value / 256 % 256, value % 256]

/-- `Writer::write_bytes`. -/
def Writer.writeBytes (buf : Bytes) (bytes : Bytes) : Bytes := buf ++ bytes

/-- `Writer::write_data`: `len as u16` prefix, then the bytes. -/
def Writer.writeData (buf : Bytes) (data : Bytes) : Bytes :=
  Writer.writeBytes (Writer.writeU16 buf (data.length % 65536)) data

/-- `Writer::write_name`: split on `'.'`, each label as `len as u8`
followed by its characters (`c as u8`), then a zero terminator.  For the
ASCII strings of this development `label.chars()` coincides with byte
iteration. -/
def Writer.writeName (buf : Bytes) (name : Bytes) : Bytes :=
  Writer.writeU8
    ((name.splitOn 46).foldl
      (fun b label =>
        label.foldl (fun b2 c => Writer.writeU8 b2 (c % 256))
          (Writer.writeU8 b (label.length % 256)))
      buf)
    0

/-! ## dns/record.rs — `Record` -/

structure Record where
  name : Bytes
  data : Bytes
  typ : Typ
  cls : Class
  unicast_response : Bool
  ttl : Nat
deriving DecidableEq

def Record.new : Record := ⟨[], [], .NONE, .NONE, false, 0⟩

/-- `Record::parse_section`: name, type, then the class word split into
the 15-bit class and the unicast-response bit. -/
def Record.parseSection (fuel : Nat) (rec : Record) (r : Reader) : Res (Record × Reader) :=
  match Reader.readName fuel r [] with
  | .error e => .error e
  | .ok (name, r1) =>
    match r1.readU16 with
    | .error e => .error e
    | .ok (tv, r2) =>
      match r2.readU16 with
      | .error e => .error e
      | .ok (cls, r3) =>
        .ok ({ rec with
                name := name
                typ := Typ.fromValue tv
                cls := Class.fromValue (cls &&& CLASS_MASK)
                unicast_response := cls &&& UNICAST_RESPONSE_MASK != 0 }, r3)

/-- `Record::parse_request_record`. -/
def Record.parseRequestRecord (fuel : Nat) (rec : Record) (r : Reader) : Res (Record × Reader) :=
  Record.parseSection fuel rec r

/-- `Record::parse_resource_record`: section, then TTL, RDLENGTH and
RDATA (`data` is only assigned when `0 < data_len`). -/
def Record.parseResourceRecord (fuel : Nat) (rec : Record) (r : Reader) : Res (Record × Reader) :=
  match Record.parseSection fuel rec r with
  | .error e => .error e
  | .ok (rec1, r1) =>
    match r1.readU32 with
    | .error e => .error e
    | .ok (ttl, r2) =>
      match r2.readU16 with
      | .error e => .error e
      | .ok (dataLen, r3) =>
        if 0 < dataLen then
          match r3.readBytes dataLen with
          | .error e => .error e
          | .ok (data, r4) => .ok ({ rec1 with ttl := ttl, data := data }, r4)
        else .ok ({ rec1 with ttl := ttl }, r3)

/-- `Writer::write_type`. -/
def Writer.writeType (buf : Bytes) (t : Typ) : Bytes := Writer.writeU16 buf t.toValue

/-- `Writer::write_request_record`: name, type, class word with the
unicast-response bit OR-ed in. -/
def Writer.writeRequestRecord (buf : Bytes) (record : Record) : Bytes :=
  let b1 := Writer.writeName buf record.name
  let b2 := Writer.writeType b1 record.typ
  let cls := record.cls.toValue
  let cls := if record.unicast_response then cls ||| UNICAST_RESPONSE_MASK else cls
  Writer.writeU16 b2 cls

/-- `Writer::write_response_record`: request form, then TTL and RDATA. -/
def Writer.writeResponseRecord (buf : Bytes) (record : Record) : Bytes :=
  Writer.writeData (Writer.writeU32 (Writer.writeRequestRecord buf record) record.ttl)
    record.data

/-! ## dns/message.rs — `Message` -/

structure Message where
  header : Bytes
  questions : List Record
  answers : List Record
  authorities : List Record
  additionals : List Record
deriving DecidableEq

/-- `Message::new`: a zeroed 12-byte header and four empty sections. -/
def Message.new : Message := ⟨List.replicate 12 0, [], [], [], []⟩

/-- `((header[offset] as u16) << 8) | header[offset+1]`; the header holds
`u8` values, so the `|` of disjoint byte ranges is `+`. -/
def Message.numberOfEntries (m : Message) (offset : Nat) : Nat :=
  m.header.getD offset 0 * 256 + m.header.getD (offset + 1) 0

/-- `Message::set_number_of_entries`: stores `(num >> 8) & 0xff` and
`num & 0xff`. -/
def Message.setNumberOfEntries (m : Message) (offset num : Nat) : Message :=
  { m with header := (m.header.set offset (num / 256 % 256)).set (offset + 1) (num % 256) }

def Message.qdCount (m : Message) : Nat := m.numberOfEntries 4
def Message.anCount (m : Message) : Nat := m.numberOfEntries 6
def Message.nsCount (m : Message) : Nat := m.numberOfEntries 8
def Message.arCount (m : Message) : Nat := m.numberOfEntries 10

def Message.setQdCount (m : Message) (num : Nat) : Message := m.setNumberOfEntries 4 num
def Message.setAnCount (m : Message) (num : Nat) : Message := m.setNumberOfEntries 6 num
def Message.setNsCount (m : Message) (num : Nat) : Message := m.setNumberOfEntries 8 num
def Message.setArCount (m : Message) (num : Nat) : Message := m.setNumberOfEntries 10 num

/-- `Message::id`: big-endian `u16` at header bytes 0 and 1. -/
def Message.id (m : Message) : Nat := m.header.getD 0 0 * 256 + m.header.getD 1 0

/-- `Message::set_id`. -/
def Message.setId (m : Message) (id : Nat) : Message :=
  { m with header := (m.header.set 0 (id / 256 % 256)).set 1 (id % 256) }

/-- `Message::add_question`: push, then `set_qd_count(len as u16)`. -/
def Message.addQuestion (m : Message) (question : Record) : Message :=
  let m1 := { m with questions := m.questions ++ [question] }
  m1.setQdCount (m1.questions.length % 65536)

/-- `Message::add_answer`. -/
def Message.addAnswer (m : Message) (answer : Record) : Message :=
  let m1 := { m with answers := m.answers ++ [answer] }
  m1.setAnCount (m1.answers.length % 65536)

/-- `Message::add_authority`. -/
def Message.addAuthority (m : Message) (authority : Record) : Message :=
  let m1 := { m with authorities := m.authorities ++ [authority] }
  m1.setNsCount (m1.authorities.length % 65536)

/-- `Message::add_additional`. -/
def Message.addAdditional (m : Message) (additional : Record) : Message :=
  let m1 := { m with additionals := m.additionals ++ [additional] }
  m1.setArCount (m1.additionals.length % 65536)

/-- The per-section loop of `Message::parse_bytes`: parse `n` records
(each from a fresh `Record::new`) and collect them in order. -/
def parseRecords (fuel n : Nat) (resource : Bool) (r : Reader) : Res (List Record × Reader) :=
  match n with
  | 0 => .ok ([], r)
  | n + 1 =>
    match (if resource then Record.parseResourceRecord fuel Record.new r
           else Record.parseRequestRecord fuel Record.new r) with
    | .error e => .error e
    | .ok (rec, r1) =>
      match parseRecords fuel n resource r1 with
      | .error e => .error e
      | .ok (recs, r2) => .ok (rec :: recs, r2)

/-- `Message::parse_bytes`: copy the 12 header bytes, then parse
QD/AN/NS/AR many records into the four sections. -/
def Message.parseBytes (fuel : Nat) (m : Message) (msgBytes : Bytes) : Res Message :=
  match Reader.readBytes 12 ⟨msgBytes, 0⟩ with
  | .error _ => .error .err
  | .ok (hdr, r1) =>
    let m1 := { m with header := hdr }
    match parseRecords fuel m1.qdCount false r1 with
    | .error e => .error e
    | .ok (qs, r2) =>
      let m2 := { m1 with questions := m1.questions ++ qs }
      match parseRecords fuel m2.anCount true r2 with
      | .error e => .error e
      | .ok (ans, r3) =>
        let m3 := { m2 with answers := m2.answers ++ ans }
        match parseRecords fuel m3.nsCount true r3 with
        | .error e => .error e
        | .ok (ns, r4) =>
          let m4 := { m3 with authorities := m3.authorities ++ ns }
          match parseRecords fuel m4.arCount true r4 with
          | .error e => .error e
          | .ok (ars, _) => .ok { m4 with additionals := m4.additionals ++ ars }

/-- `Message::from_bytes`: parse into a fresh `Message::new`. -/
def Message.fromBytes (fuel : Nat) (msgBytes : Bytes) : Res Message :=
  Message.parseBytes fuel Message.new msgBytes

/-- `Message::to_bytes`: header, then questions in request form and the
other three sections in response form. -/
def Message.toBytes (m : Message) : Bytes :=
  let b := Writer.writeBytes [] m.header
  let b := m.questions.foldl Writer.writeRequestRecord b
  let b := m.answers.foldl Writer.writeResponseRecord b
  let b := m.authorities.foldl Writer.writeResponseRecord b
  m.additionals.foldl Writer.writeResponseRecord b

/-- `impl Clone for Message`: the source creates `msg = Message::new()`
and serializes `msg` itself — not `self` — then parses those bytes back
into `msg` discarding the `Result` (parsing the zeroed header always
succeeds, so the error fallback, which would keep the partial mutation,
is unreachable). -/
def Message.clone (fuel : Nat) (_m : Message) : Message :=
  match Message.parseBytes fuel Message.new Message.new.toBytes with
  | .ok msg => msg
  | .error _ => Message.new

/-! ## query.rs — `Query`, message.rs — `QueryMessage` -/

structure Query where
  service : Bytes
  domain : Bytes
deriving DecidableEq

def Query.with (service domain : Bytes) : Query := ⟨service, domain⟩

/-- `Query::to_string` renders `"{service}.{domain}"`. -/
def Query.toString (q : Query) : Bytes := q.service ++ 46 :: q.domain

structure QueryMessage where
  msg : Message
deriving DecidableEq

/-- `QueryMessage::new(q)`: the source binds `q` but never uses it — the
wrapped message is the bare `Message::new()`, with no question added. -/
def QueryMessage.new (_q : Query) : QueryMessage := ⟨Message.new⟩

/-- `QueryMessage::to_bytes` calls `self.msg.bytes()`; no `bytes` method
exists under src/, and the only serializer `Message` has is `to_bytes`,
so serialization of the wrapped message is modelled by it. -/
def QueryMessage.toBytes (qm : QueryMessage) : Bytes := qm.msg.toBytes

/-! ## dns/txt_record.rs — `TXTRecord` -/

/-- `s.splitn(2, '=')`: the key is everything before the first `'='`
(61), the value everything after it (empty when there is none). -/
def splitKeyValue (s : Bytes) : Bytes × Bytes :=
  (s.takeWhile (fun b => b != 61),
   if s.any (fun b => b == 61) then (s.dropWhile (fun b => b != 61)).drop 1 else [])

/-- `HashMap::insert` semantics on an association list: an existing key
is overwritten, a new key is appended. -/
def mapInsert (m : List (Bytes × Bytes)) (k v : Bytes) : List (Bytes × Bytes) :=
  if m.any (fun p => p.1 == k) then m.map (fun p => if p.1 == k then (k, v) else p)
  else m ++ [(k, v)]

/-- `HashMap::get`. -/
def mapGet (m : List (Bytes × Bytes)) (k : Bytes) : Option Bytes :=
  (m.find? (fun p => p.1 == k)).map (fun p => p.2)

structure TXTRecord where
  name : Bytes
  strs : List Bytes
  attrs : List (Bytes × Bytes)
deriving DecidableEq

/-- `TXTRecord::from_record`: `read_strings` over the RDATA, then insert
each `key[=value]` into the attribute map in order. -/
def TXTRecord.fromRecord (record : Record) : Res TXTRecord :=
  match Reader.readStrings (record.data.length + 1) ⟨record.data, 0⟩ with
  | .error e => .error e
  | .ok (strs, _) =>
    let attrs := strs.foldl
      (fun m s => mapInsert m (splitKeyValue s).1 (splitKeyValue s).2) []
    .ok ⟨record.name, strs, attrs⟩

/-! ## dns/a_record.rs, dns/aaaa_record.rs, dns/srv_record.rs -/

inductive IpAddr
  | v4 (octets : Bytes)
  | v6 (octets : Bytes)
deriving DecidableEq

structure ARecord where
  ipaddr : IpAddr
deriving DecidableEq

/-- `ARecord::from_record`: at least 4 RDATA bytes, else `Err`. -/
def ARecord.fromRecord (record : Record) : Res ARecord :=
  if 4 ≤ record.data.length then .ok ⟨.v4 (record.data.take 4)⟩
  else .error .err

structure AAAARecord where
  name : Bytes
  ipaddr : IpAddr
deriving DecidableEq

/-- `AAAARecord::from_record`: at least 16 RDATA bytes, else `Err`. -/
def AAAARecord.fromRecord (record : Record) : Res AAAARecord :=
  if 16 ≤ record.data.length then .ok ⟨record.name, .v6 (record.data.take 16)⟩
  else .error .err

structure SRVRecord where
  service : Bytes
  proto : Bytes
  name : Bytes
  priority : Nat
  weight : Nat
  port : Nat
  target : Bytes
deriving DecidableEq

/-- `SRVRecord::from_record`: the default record when RDATA is empty,
otherwise priority, weight, port, then the target name.  The `service`,
`proto` and `name` fields are never assigned. -/
def SRVRecord.fromRecord (fuel : Nat) (record : Record) : Res SRVRecord :=
  let srv : SRVRecord := ⟨[], [], [], 0, 0, 0, []⟩
  if record.data.length = 0 then .ok srv
  else
    match Reader.readU16 ⟨record.data, 0⟩ with
    | .error e => .error e
    | .ok (priority, r1) =>
      match r1.readU16 with
      | .error e => .error e
      | .ok (weight, r2) =>
        match r2.readU16 with
        | .error e => .error e
        | .ok (port, r3) =>
          match Reader.readName fuel r3 [] with
          | .error e => .error e
          | .ok (target, _) =>
            .ok { srv with priority := priority, weight := weight, port := port,
                           target := target }

/-! ## service.rs — `Service` -/

structure Service where
  msg : Message
  name : Bytes
  domain : Bytes
  host : Bytes
  ipaddrs : List IpAddr
  port : Nat
  attrs : List (Bytes × Bytes)
deriving DecidableEq

/-- `Service::parse_record`.  The source match lists `Type::SRV`,
`Type::TXT`, then a wildcard `_ => {}`, and only after the wildcard the
`Type::A` and `Type::AAAA` arms; match arms are tried in order, so the
A and AAAA arms are unreachable and nothing is ever appended to
`ipaddrs`.  The `.unwrap()` on the SRV/TXT constructors turns an `Err`
into a panic. -/
def Service.parseRecord (fuel : Nat) (s : Service) (record : Record) : Res Service :=
  match record.typ with
  | .SRV =>
    match SRVRecord.fromRecord fuel record with
    | .ok srv =>
      .ok { s with name := srv.name, domain := srv.proto, host := srv.target,
                   port := srv.port }
    | .error .err => .error .panic
    | .error e => .error e
  | .TXT =>
    match TXTRecord.fromRecord record with
    | .ok txt => .ok { s with attrs := txt.attrs }
    | .error .err => .error .panic
    | .error e => .error e
  | _ => .ok s

/-- One section loop of `Service::parse_message`. -/
def Service.parseSectionRecords (fuel : Nat) (s : Service) :
    List Record → Res Service
  | [] => .ok s
  | rec :: rest =>
    match Service.parseRecord fuel s rec with
    | .ok s1 => Service.parseSectionRecords fuel s1 rest
    | .error e => .error e

/-- `Service::from_message`: start from the empty service (whose `msg`
is `msg.clone()`), then walk questions, answers, authorities and
additionals in order. -/
def Service.fromMessage (fuel : Nat) (msg : Message) : Res Service :=
  let s : Service := ⟨Message.clone fuel msg, [], [], [], [], 0, []⟩
  match Service.parseSectionRecords fuel s msg.questions with
  | .error e => .error e
  | .ok s1 =>
    match Service.parseSectionRecords fuel s1 msg.answers with
    | .error e => .error e
    | .ok s2 =>
      match Service.parseSectionRecords fuel s2 msg.authorities with
      | .error e => .error e
      | .ok s3 => Service.parseSectionRecords fuel s3 msg.additionals

/-! ## discoverer.rs — `Discoverer::packet_received` -/

/-- `Observer::packet_received` on a `Discoverer` holding `services`:
parse the datagram; on success append the built service, on an `Err`
return silently.  A panic inside parsing or service construction is not
caught and escapes the callback. -/
def packetReceived (fuel : Nat) (services : List Service) (datagram : Bytes) :
    Res (List Service) :=
  match Message.fromBytes fuel datagram with
  | .ok msg =>
    match Service.fromMessage fuel msg with
    | .ok service => .ok (services ++ [service])
    | .error e => .error e
  | .error .err => .ok services
  | .error e => .error e

/-! ## Claim-level definitions -/

/-- The class-word decode of `Record::parse_section`: the 15-bit class
and the unicast-response bit. -/
def classWordDecode (word : Nat) : Class × Bool :=
  (Class.fromValue (word &&& CLASS_MASK), word &&& UNICAST_RESPONSE_MASK != 0)

/-- The class-word encode of `Writer::write_request_record`: the class
value with `UNICAST_RESPONSE_MASK` OR-ed in when the bit was set. -/
def classWordEncode (p : Class × Bool) : Nat :=
  if p.2 then p.1.toValue ||| UNICAST_RESPONSE_MASK else p.1.toValue

/-- The count/section-length invariant of §8: each header count field
equals the length of its record list. -/
def countsInv (m : Message) : Prop :=
  m.qdCount = m.questions.length ∧ m.anCount = m.answers.length ∧
  m.nsCount = m.authorities.length ∧ m.arCount = m.additionals.length

/-- A well-formed DNS label for the uncompressed-name round-trip:
nonempty, at most 63 bytes, ASCII. -/
def wfLabel (l : Bytes) : Prop := l ≠ [] ∧ l.length ≤ 63 ∧ ∀ b ∈ l, b < 128

/-- A well-formed domain name: nonempty, and every dot-separated label
is well-formed (so no empty labels, and no leading/trailing dot). -/
def wfName (n : Bytes) : Prop := n ≠ [] ∧ ∀ l ∈ n.splitOn 46, wfLabel l

/-- Number of labels of a name; `read_name` performs one loop iteration
per label plus one for the terminator, so this bounds its fuel use. -/
def labelCount (n : Bytes) : Nat := (n.splitOn 46).length

/-- A question record a caller can round-trip: well-formed name, and the
fields the request wire form does not carry are at their defaults. -/
def wfQuestion (rec : Record) : Prop :=
  wfName rec.name ∧ rec.ttl = 0 ∧ rec.data = []

/-- A resource record a caller can round-trip: well-formed name, TTL in
`u32` range, RDATA length in `u16` range. -/
def wfResource (rec : Record) : Prop :=
  wfName rec.name ∧ rec.ttl < 4294967296 ∧ rec.data.length < 65536

/-- A programmatically built message in the round-trip claim: 12-byte
header, counts in sync with the section lengths, and well-formed
records. -/
def wfMessage (m : Message) : Prop :=
  m.header.length = 12 ∧ countsInv m ∧
  (∀ q ∈ m.questions, wfQuestion q) ∧
  (∀ r ∈ m.answers ++ m.authorities ++ m.additionals, wfResource r)

/-- Wire form of one label: length byte, then the (`as u8`) bytes. -/
def encLabel (l : Bytes) : Bytes := l.length % 256 :: l.map (fun c => c % 256)

/-- Wire form `write_name` emits: each label, then the zero terminator. -/
def nameWire (n : Bytes) : Bytes := ((n.splitOn 46).map encLabel).flatten ++ [0]

/-- Big-endian `u16` wire form. -/
def u16Wire (v : Nat) : Bytes := [v / 256 % 256, v % 256]

/-- Big-endian `u32` wire form. -/
def u32Wire (v : Nat) : Bytes :=
  [v / 16777216 % 256, v / 65536 % 256, v / 256 % 256, v % 256]

/-- The class word `write_request_record` computes for a record. -/
def classWordOf (rec : Record) : Nat :=
  if rec.unicast_response then rec.cls.toValue ||| UNICAST_RESPONSE_MASK
  else rec.cls.toValue

/-- Wire form of a question record. -/
def reqWire (rec : Record) : Bytes :=
  nameWire rec.name ++ u16Wire rec.typ.toValue ++ u16Wire (classWordOf rec)

/-- Wire form of a resource record. -/
def respWire (rec : Record) : Bytes :=
  reqWire rec ++ u32Wire rec.ttl ++ u16Wire (rec.data.length % 65536) ++ rec.data

/-- The DNS-SD meta-query `Query::with("_services._dns-sd._udp", "local")`. -/
def metaQuery : Query :=
  Query.with
    [95, 115, 101, 114, 118, 105, 99, 101, 115, 46, 95, 100, 110, 115, 45, 115,
     100, 46, 95, 117, 100, 112]
    [108, 111, 99, 97, 108]

/-- TXT RDATA with a duplicated key: the strings `"a=b"` and `"a=c"`,
then the zero length byte that stops `read_strings`. -/
def txtDupRecord : Record :=
  { Record.new with typ := .TXT, data := [3, 97, 61, 98, 3, 97, 61, 99, 0] }

/-- The spec's S5 TXT RDATA (`"key=val"`, `"k2="`), which like any real
TXT RDATA has no zero length byte after its last string. -/
def txtS5Record : Record :=
  { Record.new with typ := .TXT, data := [7, 107, 101, 121, 61, 118, 97, 108, 3, 107, 50, 61] }

/-- A question with an empty name (the default of `Record::new`). -/
def emptyNameQuestion : Record := { Record.new with typ := .PTR, cls := .IN }

/-- A message whose only question has an empty name. -/
def msgEmptyName : Message := Message.new.addQuestion emptyNameQuestion

/-- A message carrying one A answer with RDATA `192.168.1.5`. -/
def msgOneARecord : Message :=
  Message.new.addAnswer
    { Record.new with name := [104], typ := .A, cls := .IN, ttl := 120,
                      data := [192, 168, 1, 5] }

/-- The service with every aggregate field still at its initial value. -/
def emptyService : Service := ⟨Message.new, [], [], [], [], 0, []⟩

/-- A 12-byte header announcing one question followed by no question
bytes at all. -/
def truncatedDatagram : Bytes := [0, 0, 0, 0, 0, 1, 0, 0, 0, 0, 0, 0]

/-- A message with 65535 questions and the QD count field at 65535. -/
def msg65535 : Message :=
  ⟨[0, 0, 0, 0, 255, 255, 0, 0, 0, 0, 0, 0], List.replicate 65535 Record.new, [], [], []⟩

/-- A round-trippable two-record message: question `"abc"` PTR IN and
answer `"h1"` A IN with a 4-byte RDATA. -/
def rtMessage : Message :=
  (Message.new.addQuestion
      { Record.new with name := [97, 98, 99], typ := .PTR, cls := .IN }).addAnswer
    { Record.new with name := [104, 49], typ := .A, cls := .IN, ttl := 120,
                      data := [192, 168, 1, 5] }

/-- Decidability of the well-formedness predicates, so concrete
witnesses can be checked by evaluation. -/
instance (l : Bytes) : Decidable (wfLabel l) := by unfold wfLabel; infer_instance
instance (n : Bytes) : Decidable (wfName n) := by unfold wfName; infer_instance
instance (r : Record) : Decidable (wfQuestion r) := by unfold wfQuestion; infer_instance
instance (r : Record) : Decidable (wfResource r) := by unfold wfResource; infer_instance
instance (m : Message) : Decidable (countsInv m) := by unfold countsInv; infer_instance
instance (m : Message) : Decidable (wfMessage m) := by unfold wfMessage; infer_instance

/-! ## Theorems -/

/-- C1.  `QueryMessage::new(q)` ignores its argument: the built message
has no question at all, and serializing it and parsing the bytes yields
the empty `Message::new` with `qd_count = 0` and an empty question list —
not the single PTR/IN question named `q.to_string()` the claim states.
(The repository's own `message_test.rs` asserts `qd_count == 1`.) -/
theorem queryMessage_new_builds_empty_message :
    (QueryMessage.new metaQuery).msg.questions = [] ∧
    Message.fromBytes 1 (QueryMessage.toBytes (QueryMessage.new metaQuery)) =
      .ok Message.new ∧
    Message.new.qdCount = 0 ∧ Message.new.questions = [] := by
  decide

/-- C3.  Boundary behaviour of the `Reader` operations.  `read_bytes`
(and hence `read_u16`/`read_u32`) return the error at exhaustion, but
`read_u8`, `read_string`, `read_strings` and `read_name` guard with
`buffer_len < cursor` instead of `<=` (or not at all) and hit an
out-of-bounds index — a panic — exactly when one byte past the end is
read, contradicting the claim that every read fails with `ShortBuffer`
instead of panicking. -/
theorem reader_boundary_behaviour :
    Reader.readU8 ⟨[7], 0⟩ = .ok (7, ⟨[7], 1⟩) ∧
    Reader.readU8 ⟨[7], 1⟩ = .error .panic ∧
    Reader.readU8 ⟨[], 0⟩ = .error .panic ∧
    Reader.readBytes 1 ⟨[7], 1⟩ = .error .err ∧
    Reader.readU16 ⟨[1, 2], 0⟩ = .ok (258, ⟨[1, 2], 2⟩) ∧
    Reader.readU16 ⟨[1, 2], 1⟩ = .error .err ∧
    Reader.readU32 ⟨[0, 0, 1, 2], 1⟩ = .error .err ∧
    Reader.readString ⟨[1, 97], 0⟩ = .ok ([97], ⟨[1, 97], 2⟩) ∧
    Reader.readString ⟨[1, 97], 2⟩ = .error .panic ∧
    Reader.readStrings 3 ⟨[1, 97, 0], 0⟩ = .ok ([[97]], ⟨[1, 97, 0], 3⟩) ∧
    Reader.readStrings 3 ⟨[1, 97], 0⟩ = .error .panic ∧
    Reader.readName 3 ⟨[1, 97, 0], 0⟩ [] = .ok ([97], ⟨[1, 97, 0], 3⟩) ∧
    Reader.readName 3 ⟨[1, 97, 0], 3⟩ [] = .error .panic := by
  decide

/-- C4.  `read_name` has no cap on compression-pointer traversals: on
the two-byte buffer `c0 00` — a pointer to offset 0, i.e. to itself —
the recursion never returns, whatever fuel it is given, instead of
reporting `MalformedName` as the claim requires. -/
theorem read_name_self_pointer_never_returns :
    ∀ fuel, Reader.readName fuel ⟨[192, 0], 0⟩ [] = .error .diverge := by
  intro fuel
  induction fuel with
  | zero => rfl
  | succ f ih =>
    have step : Reader.readName (f + 1) ⟨[192, 0], 0⟩ [] =
        match Reader.readName f ⟨[192, 0], 0⟩ [] with
        | .ok (compressed, _) => .ok (appendLabel [] compressed, ⟨[192, 0], 2⟩)
        | .error e => .error e := rfl
    rw [step, ih]

/-- C5.  `TXTRecord::from_record` contradicts the claim twice.  With the
duplicate-key RDATA `"a=b" "a=c"` the attribute map keeps the *last*
value (`HashMap::insert` overwrites), not the first.  And on the spec's
own S5 RDATA — which, like every standard TXT RDATA, simply ends when
the data is exhausted, with no zero length byte — `read_strings` walks
past the end and panics instead of stopping at exhaustion. -/
theorem txt_record_last_wins_and_panics_without_terminator :
    TXTRecord.fromRecord txtDupRecord =
      .ok ⟨[], [[97, 61, 98], [97, 61, 99]], [([97], [99])]⟩ ∧
    mapGet [([97], [99])] [97] = some [99] ∧
    TXTRecord.fromRecord txtS5Record = .error .panic := by
  decide

/-- C9.  `packet_received` does drop a datagram whose header read fails,
but a datagram whose header announces one question and then ends makes
`read_name` index out of bounds: the callback panics instead of either
dropping the datagram or appending a service, so the error neither stays
silent nor leaves the services list defined. -/
theorem packet_received_panics_on_truncated_datagram :
    packetReceived 8 [] [0, 1] = .ok [] ∧
    packetReceived 8 [] truncatedDatagram = .error .panic := by
  decide

/-- C10.  `Message::clone` serializes the freshly created message rather
than `self`, so it returns the empty `Message::new` for every receiver:
cloning a message with a nonzero ID (or any records) loses everything,
instead of agreeing with it on header bits, counts and sections. -/
theorem message_clone_always_returns_empty :
    (∀ fuel m, Message.clone fuel m = Message.new) ∧
    Message.clone 1 (Message.new.setId 1) = Message.new ∧
    Message.new.setId 1 ≠ Message.new := by
  refine ⟨fun fuel m => rfl, by decide, by decide⟩

/-- C7 counterexample.  The 16-bit class word `2` decodes to class
`NONE` (class codes other than 1 all fold to `NONE`) with a clear
unicast bit, and re-encodes to `0`, not `2`. -/
theorem class_word_two_does_not_roundtrip :
    classWordDecode 2 = (Class.NONE, false) ∧
    classWordEncode (Class.NONE, false) = 0 ∧ (0 : Nat) ≠ 2 := by
  decide

/-- C7 (amended).  For every 16-bit class word whose low 15 bits are a
supported class code (0 or 1), splitting it into class and unicast bit
as `parse_section` does and re-encoding as `write_request_record` does
yields the word again. -/
theorem class_word_roundtrip (w : Nat) (hw : w < 65536)
    (hcls : w &&& CLASS_MASK = 0 ∨ w &&& CLASS_MASK = 1) :
    classWordEncode (classWordDecode w) = w := by
  have hmask : CLASS_MASK = 2 ^ 15 - 1 := by norm_num [CLASS_MASK]
  have hmod : w &&& CLASS_MASK = w % 2 ^ 15 := by
    rw [hmask, Nat.and_pow_two_sub_one_eq_mod]
  rw [hmod] at hcls
  have hw4 : w = 0 ∨ w = 1 ∨ w = 32768 ∨ w = 32769 := by
    have h15 : (2 : Nat) ^ 15 = 32768 := by norm_num
    rw [h15] at hcls
    omega
  rcases hw4 with rfl | rfl | rfl | rfl <;> decide

/-- C7 witness: the round-trip theorem applied at the 16-bit word
`0x8001` (class IN with the unicast bit set). -/
theorem class_word_roundtrip_witness :
    classWordEncode (classWordDecode 32769) = 32769 :=
  class_word_roundtrip 32769 (by decide) (by decide)

/-- No arm of `Service::parse_record` ever changes `ipaddrs`: the SRV and
TXT arms update other fields and everything else falls into the wildcard
arm that precedes the unreachable A/AAAA arms. -/
theorem service_parseRecord_ipaddrs (fuel : Nat) (s : Service) (rec : Record)
    (s1 : Service) (h : Service.parseRecord fuel s rec = .ok s1) :
    s1.ipaddrs = s.ipaddrs := by
  unfold Service.parseRecord at h
  split at h
  · split at h
    · cases h; rfl
    · cases h
    · cases h
  · split at h
    · cases h; rfl
    · cases h
    · cases h
  · cases h; rfl

/-- A section walk of `Service::parse_message` preserves `ipaddrs`. -/
theorem service_parseSectionRecords_ipaddrs :
    ∀ (recs : List Record) (fuel : Nat) (s s1 : Service),
      Service.parseSectionRecords fuel s recs = .ok s1 → s1.ipaddrs = s.ipaddrs := by
  intro recs
  induction recs with
  | nil => intro fuel s s1 h; cases h; rfl
  | cons rec rest ih =>
    intro fuel s s1 h
    unfold Service.parseSectionRecords at h
    cases hr : Service.parseRecord fuel s rec with
    | ok s2 =>
      rw [hr] at h
      exact (ih fuel s2 s1 h).trans (service_parseRecord_ipaddrs fuel s rec s2 hr)
    | error e => rw [hr] at h; cases h

/-- C2.  `Service::from_message` contradicts the claim for every
message: because the wildcard arm `_ => {}` comes before the `Type::A`
and `Type::AAAA` arms of `parse_record`, those arms are unreachable and
the `ipaddrs` list of any successfully built service is empty — no A or
AAAA record is ever appended. -/
theorem service_ipaddrs_always_empty (fuel : Nat) (msg : Message) (s : Service)
    (h : Service.fromMessage fuel msg = .ok s) : s.ipaddrs = [] := by
  unfold Service.fromMessage at h
  simp only [] at h
  cases h1 : Service.parseSectionRecords fuel ⟨Message.clone fuel msg, [], [], [], [], 0, []⟩
      msg.questions with
  | error e => rw [h1] at h; cases h
  | ok s1 =>
    rw [h1] at h
    simp only [] at h
    cases h2 : Service.parseSectionRecords fuel s1 msg.answers with
    | error e => rw [h2] at h; cases h
    | ok s2 =>
      rw [h2] at h
      simp only [] at h
      cases h3 : Service.parseSectionRecords fuel s2 msg.authorities with
      | error e => rw [h3] at h; cases h
      | ok s3 =>
        rw [h3] at h
        simp only [] at h
        have e4 := service_parseSectionRecords_ipaddrs msg.additionals fuel s3 s h
        have e3 := service_parseSectionRecords_ipaddrs msg.authorities fuel s2 s3 h3
        have e2 := service_parseSectionRecords_ipaddrs msg.answers fuel s1 s2 h2
        have e1 := service_parseSectionRecords_ipaddrs msg.questions fuel _ s1 h1
        rw [e4, e3, e2, e1]

/-- C2 witness: a message carrying exactly one A record with RDATA
`192.168.1.5` still yields a service whose `ipaddrs` is empty (the claim
expects one decoded IPv4 address). -/
theorem service_ipaddrs_always_empty_witness :
    Service.fromMessage 1 msgOneARecord = .ok emptyService ∧
    emptyService.ipaddrs = [] :=
  ⟨by decide, service_ipaddrs_always_empty 1 msgOneARecord emptyService (by decide)⟩

/-- `getD` after `set` at the same in-range index. -/
theorem getD_set_self :
    ∀ (l : List Nat) (i v d : Nat), i < l.length → (l.set i v).getD i d = v := by
  intro l
  induction l with
  | nil => intro i v d h; simp at h
  | cons a tl ih =>
    intro i v d h
    cases i with
    | zero => rfl
    | succ j => simpa using ih j v d (by simpa using h)

/-- `getD` after `set` at a different index. -/
theorem getD_set_ne :
    ∀ (l : List Nat) (i j v d : Nat), i ≠ j → (l.set i v).getD j d = l.getD j d := by
  intro l
  induction l with
  | nil => intro i j v d _; rfl
  | cons a tl ih =>
    intro i j v d hne
    cases i with
    | zero =>
      cases j with
      | zero => exact absurd rfl hne
      | succ jj => simp
    | succ ii =>
      cases j with
      | zero => simp
      | succ jj => simpa using ih ii jj v d (by omega)

/-- The section loop of `parse_bytes` returns exactly as many records as
it was asked for. -/
theorem parseRecords_length :
    ∀ (n fuel : Nat) (resource : Bool) (r : Reader) (rs : List Record) (r1 : Reader),
      parseRecords fuel n resource r = .ok (rs, r1) → rs.length = n := by
  intro n
  induction n with
  | zero => intro fuel resource r rs r1 h; cases h; rfl
  | succ k ih =>
    intro fuel resource r rs r1 h
    unfold parseRecords at h
    split at h
    · cases h
    · split at h
      · cases h
      · rename_i recs r3 hrecs
        cases h
        simpa using ih _ _ _ _ _ hrecs

/-- C8 (amended).  Every successfully parsed message satisfies the
count/section-length invariant, and each `add_*` mutator preserves the
invariant as long as the grown list still fits the 16-bit count field
(at 65536 records the `len as u16` cast wraps to 0). -/
theorem message_counts_invariant :
    (∀ (fuel : Nat) (msgBytes : Bytes) (m : Message),
        Message.fromBytes fuel msgBytes = .ok m → countsInv m) ∧
    (∀ (m : Message) (q : Record), m.header.length = 12 → countsInv m →
        m.questions.length + 1 < 65536 → countsInv (m.addQuestion q)) ∧
    (∀ (m : Message) (a : Record), m.header.length = 12 → countsInv m →
        m.answers.length + 1 < 65536 → countsInv (m.addAnswer a)) ∧
    (∀ (m : Message) (a : Record), m.header.length = 12 → countsInv m →
        m.authorities.length + 1 < 65536 → countsInv (m.addAuthority a)) ∧
    (∀ (m : Message) (a : Record), m.header.length = 12 → countsInv m →
        m.additionals.length + 1 < 65536 → countsInv (m.addAdditional a)) := by
  have hset : ∀ (m : Message) (offset num : Nat), offset + 1 < 12 →
      m.header.length = 12 → num < 65536 →
      (m.setNumberOfEntries offset num).numberOfEntries offset = num := by
    intro m offset num hoff hlen hnum
    unfold Message.setNumberOfEntries Message.numberOfEntries
    simp only []
    rw [getD_set_ne _ (offset + 1) offset _ _ (by omega),
        getD_set_self _ offset _ _ (by omega),
        getD_set_self _ (offset + 1) _ _ (by simp [hlen]; omega)]
    omega
  have hsetne : ∀ (m : Message) (offset num other : Nat),
      other ≠ offset → other + 1 ≠ offset → other ≠ offset + 1 → other + 1 ≠ offset + 1 →
      (m.setNumberOfEntries offset num).numberOfEntries other = m.numberOfEntries other := by
    intro m offset num other h1 h2 h3 h4
    unfold Message.setNumberOfEntries Message.numberOfEntries
    simp only []
    rw [getD_set_ne _ (offset + 1) other _ _ (by omega),
        getD_set_ne _ offset other _ _ (by omega),
        getD_set_ne _ (offset + 1) (other + 1) _ _ (by omega),
        getD_set_ne _ offset (other + 1) _ _ (by omega)]
  refine ⟨?_, ?_, ?_, ?_, ?_⟩
  · intro fuel msgBytes m h
    unfold Message.fromBytes Message.parseBytes at h
    split at h
    · cases h
    · rename_i hdr r1 hread
      try simp only [] at h
      split at h
      · cases h
      · rename_i qs r2 hqs
        try simp only [] at h
        split at h
        · cases h
        · rename_i ans r3 hans
          try simp only [] at h
          split at h
          · cases h
          · rename_i ns r4 hns
            try simp only [] at h
            split at h
            · cases h
            · rename_i ars r5 hars
              cases h
              refine ⟨?_, ?_, ?_, ?_⟩
              · simpa [Message.qdCount, Message.numberOfEntries, Message.new]
                  using (parseRecords_length _ _ _ _ _ _ hqs).symm
              · simpa [Message.anCount, Message.numberOfEntries, Message.new]
                  using (parseRecords_length _ _ _ _ _ _ hans).symm
              · simpa [Message.nsCount, Message.numberOfEntries, Message.new]
                  using (parseRecords_length _ _ _ _ _ _ hns).symm
              · simpa [Message.arCount, Message.numberOfEntries, Message.new]
                  using (parseRecords_length _ _ _ _ _ _ hars).symm
  · intro m q hlen hinv hbound
    unfold Message.addQuestion Message.setQdCount
    have hmod : (m.questions.length + 1) % 65536 = m.questions.length + 1 :=
      Nat.mod_eq_of_lt hbound
    refine ⟨?_, ?_, ?_, ?_⟩
    · show Message.numberOfEntries _ 4 = _
      rw [show ({ m with questions := m.questions ++ [q] } : Message).setNumberOfEntries 4
            (({ m with questions := m.questions ++ [q] } : Message).questions.length % 65536)
          = ({ m with questions := m.questions ++ [q] } : Message).setNumberOfEntries 4
            (m.questions.length + 1) by simp [hmod]]
      rw [hset _ 4 _ (by omega) (by simpa using hlen) (by omega)]
      simp [Message.setNumberOfEntries]
    · show Message.numberOfEntries _ 6 = _
      rw [hsetne _ 4 _ 6 (by omega) (by omega) (by omega) (by omega)]
      exact hinv.2.1
    · show Message.numberOfEntries _ 8 = _
      rw [hsetne _ 4 _ 8 (by omega) (by omega) (by omega) (by omega)]
      exact hinv.2.2.1
    · show Message.numberOfEntries _ 10 = _
      rw [hsetne _ 4 _ 10 (by omega) (by omega) (by omega) (by omega)]
      exact hinv.2.2.2
  · intro m a hlen hinv hbound
    unfold Message.addAnswer Message.setAnCount
    have hmod : (m.answers.length + 1) % 65536 = m.answers.length + 1 :=
      Nat.mod_eq_of_lt hbound
    refine ⟨?_, ?_, ?_, ?_⟩
    · show Message.numberOfEntries _ 4 = _
      rw [hsetne _ 6 _ 4 (by omega) (by omega) (by omega) (by omega)]
      exact hinv.1
    · show Message.numberOfEntries _ 6 = _
      rw [show ({ m with answers := m.answers ++ [a] } : Message).setNumberOfEntries 6
            (({ m with answers := m.answers ++ [a] } : Message).answers.length % 65536)
          = ({ m with answers := m.answers ++ [a] } : Message).setNumberOfEntries 6
            (m.answers.length + 1) by simp [hmod]]
      rw [hset _ 6 _ (by omega) (by simpa using hlen) (by omega)]
      simp [Message.setNumberOfEntries]
    · show Message.numberOfEntries _ 8 = _
      rw [hsetne _ 6 _ 8 (by omega) (by omega) (by omega) (by omega)]
      exact hinv.2.2.1
    · show Message.numberOfEntries _ 10 = _
      rw [hsetne _ 6 _ 10 (by omega) (by omega) (by omega) (by omega)]
      exact hinv.2.2.2
  · intro m a hlen hinv hbound
    unfold Message.addAuthority Message.setNsCount
    have hmod : (m.authorities.length + 1) % 65536 = m.authorities.length + 1 :=
      Nat.mod_eq_of_lt hbound
    refine ⟨?_, ?_, ?_, ?_⟩
    · show Message.numberOfEntries _ 4 = _
      rw [hsetne _ 8 _ 4 (by omega) (by omega) (by omega) (by omega)]
      exact hinv.1
    · show Message.numberOfEntries _ 6 = _
      rw [hsetne _ 8 _ 6 (by omega) (by omega) (by omega) (by omega)]
      exact hinv.2.1
    · show Message.numberOfEntries _ 8 = _
      rw [show ({ m with authorities := m.authorities ++ [a] } : Message).setNumberOfEntries 8
            (({ m with authorities := m.authorities ++ [a] } : Message).authorities.length % 65536)
          = ({ m with authorities := m.authorities ++ [a] } : Message).setNumberOfEntries 8
            (m.authorities.length + 1) by simp [hmod]]
      rw [hset _ 8 _ (by omega) (by simpa using hlen) (by omega)]
      simp [Message.setNumberOfEntries]
    · show Message.numberOfEntries _ 10 = _
      rw [hsetne _ 8 _ 10 (by omega) (by omega) (by omega) (by omega)]
      exact hinv.2.2.2
  · intro m a hlen hinv hbound
    unfold Message.addAdditional Message.setArCount
    have hmod : (m.additionals.length + 1) % 65536 = m.additionals.length + 1 :=
      Nat.mod_eq_of_lt hbound
    refine ⟨?_, ?_, ?_, ?_⟩
    · show Message.numberOfEntries _ 4 = _
      rw [hsetne _ 10 _ 4 (by omega) (by omega) (by omega) (by omega)]
      exact hinv.1
    · show Message.numberOfEntries _ 6 = _
      rw [hsetne _ 10 _ 6 (by omega) (by omega) (by omega) (by omega)]
      exact hinv.2.1
    · show Message.numberOfEntries _ 8 = _
      rw [hsetne _ 10 _ 8 (by omega) (by omega) (by omega) (by omega)]
      exact hinv.2.2.1
    · show Message.numberOfEntries _ 10 = _
      rw [show ({ m with additionals := m.additionals ++ [a] } : Message).setNumberOfEntries 10
            (({ m with additionals := m.additionals ++ [a] } : Message).additionals.length % 65536)
          = ({ m with additionals := m.additionals ++ [a] } : Message).setNumberOfEntries 10
            (m.additionals.length + 1) by simp [hmod]]
      rw [hset _ 10 _ (by omega) (by simpa using hlen) (by omega)]
      simp [Message.setNumberOfEntries]

/-- QD count stored by one `add_question`: the list length truncated by
the `as u16` cast. -/
theorem addQuestion_qdCount (m : Message) (q : Record) (hlen : m.header.length = 12) :
    (m.addQuestion q).qdCount = (m.questions.length + 1) % 65536 := by
  unfold Message.addQuestion Message.setQdCount Message.setNumberOfEntries Message.qdCount
    Message.numberOfEntries
  simp only [List.length_append, List.length_cons, List.length_nil]
  rw [getD_set_self _ 5 _ _ (by simp [hlen]), getD_set_ne _ 5 4 _ _ (by omega),
      getD_set_self _ 4 _ _ (by omega)]
  omega

/-- C8 counterexample.  A message with 65535 questions and its count
field in sync loses the invariant on the 65536th `add_question`: the
`len as u16` cast wraps the stored count to 0 while the list grows to
65536 entries, so the unrestricted preservation claim is false. -/
theorem add_question_count_wraps :
    countsInv msg65535 ∧ ¬ countsInv (msg65535.addQuestion Record.new) := by
  have hl : msg65535.questions.length = 65535 := by
    show (List.replicate 65535 Record.new).length = 65535
    rw [List.length_replicate]
  have hl2 : (msg65535.addQuestion Record.new).questions.length = 65536 := by
    show (msg65535.questions ++ [Record.new]).length = 65536
    rw [List.length_append, hl]
    rfl
  have hq : (msg65535.addQuestion Record.new).qdCount = 0 := by
    rw [addQuestion_qdCount msg65535 Record.new (by rfl), hl]
  constructor
  · exact ⟨by rw [hl]; rfl, rfl, rfl, rfl⟩
  · intro hc
    have h1 := hc.1
    rw [hq, hl2] at h1
    exact absurd h1 (by omega)

/-- C8 witness: the invariant theorem applied to a parse of the empty
12-byte header and to one `add_question` on the empty message. -/
theorem message_counts_invariant_witness :
    countsInv Message.new ∧ countsInv (Message.new.addQuestion Record.new) :=
  ⟨message_counts_invariant.1 1 (List.replicate 12 0) Message.new (by decide),
   message_counts_invariant.2.1 Message.new Record.new (by decide)
     ⟨rfl, rfl, rfl, rfl⟩ (by decide)⟩

theorem writeU8_eq (buf : Bytes) (v : Nat) : Writer.writeU8 buf v = buf ++ [v] := rfl

theorem label_foldl_eq :
    ∀ (l : Bytes) (b : Bytes),
      l.foldl (fun b2 c => Writer.writeU8 b2 (c % 256)) b = b ++ l.map (fun c => c % 256) := by
  intro l
  induction l with
  | nil => intro b; simp
  | cons c rest ih =>
    intro b
    rw [List.foldl_cons, ih]
    simp [Writer.writeU8]

theorem nameLabels_foldl_eq :
    ∀ (ls : List Bytes) (b : Bytes),
      ls.foldl
        (fun b label =>
          label.foldl (fun b2 c => Writer.writeU8 b2 (c % 256))
            (Writer.writeU8 b (label.length % 256)))
        b
      = b ++ (ls.map encLabel).flatten := by
  intro ls
  induction ls with
  | nil => intro b; simp
  | cons l rest ih =>
    intro b
    rw [List.foldl_cons, label_foldl_eq, ih]
    simp [Writer.writeU8, encLabel]

theorem writeName_eq (buf n : Bytes) : Writer.writeName buf n = buf ++ nameWire n := by
  unfold Writer.writeName nameWire
  rw [nameLabels_foldl_eq]
  simp [Writer.writeU8]

theorem writeRequestRecord_eq (buf : Bytes) (rec : Record) :
    Writer.writeRequestRecord buf rec = buf ++ reqWire rec := by
  unfold Writer.writeRequestRecord reqWire Writer.writeType Writer.writeU16 classWordOf u16Wire
  rw [writeName_eq]
  simp

theorem writeResponseRecord_eq (buf : Bytes) (rec : Record) :
    Writer.writeResponseRecord buf rec = buf ++ respWire rec := by
  unfold Writer.writeResponseRecord respWire Writer.writeData Writer.writeBytes Writer.writeU32
    Writer.writeU16 u32Wire u16Wire
  rw [writeRequestRecord_eq]
  simp

theorem foldl_write_eq {f : Bytes → Record → Bytes} {g : Record → Bytes}
    (hfg : ∀ buf x, f buf x = buf ++ g x) :
    ∀ (l : List Record) (buf : Bytes), l.foldl f buf = buf ++ (l.map g).flatten := by
  intro l
  induction l with
  | nil => intro buf; simp
  | cons x rest ih => intro buf; simp [hfg, ih]

theorem toBytes_eq (m : Message) :
    m.toBytes = m.header ++ (m.questions.map reqWire).flatten
      ++ (m.answers.map respWire).flatten ++ (m.authorities.map respWire).flatten
      ++ (m.additionals.map respWire).flatten := by
  unfold Message.toBytes Writer.writeBytes
  simp only []
  rw [foldl_write_eq writeRequestRecord_eq, foldl_write_eq writeResponseRecord_eq,
      foldl_write_eq writeResponseRecord_eq, foldl_write_eq writeResponseRecord_eq]
  simp


theorem getD_append_length (pre : Bytes) (b : Nat) (rest : Bytes) (d : Nat) :
    (pre ++ b :: rest).getD pre.length d = b := by
  induction pre with
  | nil => rfl
  | cons a tl ih => simpa using ih

theorem readBytes_piece (buffer pre mid post : Bytes) (cursor n : Nat)
    (hb : buffer = pre ++ mid ++ post) (hc : cursor = pre.length) (hn : mid.length = n) :
    Reader.readBytes n ⟨buffer, cursor⟩ = .ok (mid, ⟨buffer, cursor + n⟩) := by
  subst hb hc hn
  unfold Reader.readBytes
  rw [if_neg (by simp only [List.length_append]; omega)]
  rw [List.append_assoc, List.drop_left, List.take_left]

theorem readU16_piece (buffer pre post : Bytes) (cursor v : Nat)
    (hb : buffer = pre ++ u16Wire v ++ post) (hc : cursor = pre.length) (hv : v < 65536) :
    Reader.readU16 ⟨buffer, cursor⟩ = .ok (v, ⟨buffer, cursor + 2⟩) := by
  unfold Reader.readU16
  rw [readBytes_piece buffer pre (u16Wire v) post cursor 2 hb hc rfl]
  simp only []
  have hval : (u16Wire v).getD 0 0 * 256 + (u16Wire v).getD 1 0 = v := by
    simp [u16Wire]
    omega
  rw [hval]

theorem readU32_piece (buffer pre post : Bytes) (cursor v : Nat)
    (hb : buffer = pre ++ u32Wire v ++ post) (hc : cursor = pre.length)
    (hv : v < 4294967296) :
    Reader.readU32 ⟨buffer, cursor⟩ = .ok (v, ⟨buffer, cursor + 4⟩) := by
  unfold Reader.readU32
  rw [readBytes_piece buffer pre (u32Wire v) post cursor 4 hb hc rfl]
  simp only []
  have hval : (u32Wire v).getD 0 0 * 16777216 + (u32Wire v).getD 1 0 * 65536
      + (u32Wire v).getD 2 0 * 256 + (u32Wire v).getD 3 0 = v := by
    simp [u32Wire]
    omega
  rw [hval]

theorem ascii_utf8Valid : ∀ (l : Bytes), (∀ b ∈ l, b < 128) → utf8Valid l = true := by
  intro l
  induction l with
  | nil => intro _; rfl
  | cons b rest ih =>
    intro h
    unfold utf8Valid
    rw [if_pos (by have := h b (by simp); omega)]
    exact ih (fun x hx => h x (by simp [hx]))

theorem map_mod256_eq (l : Bytes) (h : ∀ b ∈ l, b < 128) :
    l.map (fun c => c % 256) = l := by
  induction l with
  | nil => rfl
  | cons b rest ih =>
    simp only [List.map_cons]
    rw [Nat.mod_eq_of_lt (by have := h b (by simp); omega),
        ih (fun x hx => h x (by simp [hx]))]

theorem small_and192 (x : Nat) (h : x ≤ 63) : x &&& 192 = 0 := by
  have hall : ∀ y < 64, y &&& 192 = 0 := by decide
  exact hall x (by omega)


theorem readName_terminator (fuel : Nat) (buffer pre post acc : Bytes) (cursor : Nat)
    (hb : buffer = pre ++ 0 :: post) (hc : cursor = pre.length) :
    Reader.readName (fuel + 1) ⟨buffer, cursor⟩ acc = .ok (acc, ⟨buffer, cursor + 1⟩) := by
  subst hb hc
  rw [Reader.readName]
  rw [if_pos (by simp only [List.length_append, List.length_cons]; omega)]
  simp only []
  rw [getD_append_length]
  rw [if_pos rfl]

theorem readName_label_step (fuel : Nat) (buffer pre post acc l : Bytes) (cursor : Nat)
    (hb : buffer = pre ++ (l.length :: l) ++ post) (hc : cursor = pre.length)
    (h1 : 1 ≤ l.length) (h63 : l.length ≤ 63) (hascii : ∀ b ∈ l, b < 128) :
    Reader.readName (fuel + 1) ⟨buffer, cursor⟩ acc
      = Reader.readName fuel ⟨buffer, cursor + 1 + l.length⟩ (appendLabel acc l) := by
  have hbuf : buffer = pre ++ l.length :: (l ++ post) := by simp [hb]
  subst hc
  rw [hbuf]
  rw [Reader.readName]
  rw [if_pos (by simp only [List.length_append, List.length_cons]; omega)]
  simp only []
  rw [getD_append_length]
  rw [if_neg (by omega)]
  rw [small_and192 l.length h63]
  rw [if_neg (by omega)]
  rw [if_neg (by simp only [List.length_append, List.length_cons]; omega)]
  have hdrop : (pre ++ l.length :: (l ++ post)).drop (pre.length + 1) = l ++ post := by
    have : pre ++ l.length :: (l ++ post) = (pre ++ [l.length]) ++ (l ++ post) := by simp
    rw [this, List.drop_left' (by simp)]
  rw [hdrop, List.take_left, ascii_utf8Valid l hascii]
  rw [if_pos rfl]

theorem readName_encLabels :
    ∀ (ls : List Bytes) (fuel : Nat) (buffer pre post acc : Bytes) (cursor : Nat),
      buffer = pre ++ ((ls.map encLabel).flatten ++ [0]) ++ post → cursor = pre.length →
      (∀ l ∈ ls, wfLabel l) → ls.length < fuel →
      Reader.readName fuel ⟨buffer, cursor⟩ acc
        = .ok (ls.foldl appendLabel acc,
               ⟨buffer, cursor + ((ls.map encLabel).flatten.length + 1)⟩) := by
  intro ls
  induction ls with
  | nil =>
    intro fuel buffer pre post acc cursor hb hc hwf hfuel
    cases fuel with
    | zero => omega
    | succ f =>
      rw [readName_terminator f buffer pre post acc cursor (by simpa using hb) hc]
      simp
  | cons l rest ih =>
    intro fuel buffer pre post acc cursor hb hc hwf hfuel
    cases fuel with
    | zero => omega
    | succ f =>
      obtain ⟨hl0, h63, hascii⟩ := hwf l (by simp)
      have h1 : 1 ≤ l.length := by
        cases l with
        | nil => exact absurd rfl hl0
        | cons a t => simp
      have henc : encLabel l = l.length :: l := by
        unfold encLabel
        rw [Nat.mod_eq_of_lt (by omega), map_mod256_eq l hascii]
      rw [readName_label_step f buffer pre ((rest.map encLabel).flatten ++ [0] ++ post) acc l
            cursor (by simp [hb, henc, List.append_assoc]) hc h1 h63 hascii]
      rw [ih f buffer (pre ++ encLabel l) post (appendLabel acc l) (cursor + 1 + l.length)
            (by simp [hb, henc, List.append_assoc]) (by simp [henc, hc]; omega)
            (fun x hx => hwf x (by simp [hx])) (by simp at hfuel ⊢; omega)]
      have hcur : cursor + 1 + l.length + ((rest.map encLabel).flatten.length + 1)
          = cursor + ((((l :: rest).map encLabel).flatten).length + 1) := by
        simp [henc]
        omega
      rw [List.foldl_cons, hcur]


theorem foldl_appendLabel_acc :
    ∀ (ls : List Bytes) (acc : Bytes), acc ≠ [] →
      ls.foldl appendLabel acc = acc ++ (ls.map (fun l => 46 :: l)).flatten := by
  intro ls
  induction ls with
  | nil => intro acc _; simp
  | cons l rest ih =>
    intro acc hacc
    rw [List.foldl_cons]
    have hstep : appendLabel acc l = acc ++ 46 :: l := by
      unfold appendLabel
      rw [if_pos (by cases acc with | nil => exact absurd rfl hacc | cons a t => simp)]
    rw [hstep, ih (acc ++ 46 :: l) (by simp)]
    simp

theorem intercalate_dot_eq :
    ∀ (ls : List Bytes) (l : Bytes),
      [46].intercalate (l :: ls) = l ++ (ls.map (fun x => 46 :: x)).flatten := by
  intro ls
  induction ls with
  | nil => intro l; simp [List.intercalate]
  | cons m rest ih =>
    intro l
    rw [List.intercalate, List.intersperse_cons_cons]
    simp only [List.flatten_cons]
    have := ih m
    rw [List.intercalate] at this
    simp [this]

theorem name_join (n : Bytes) (h : ∀ l ∈ n.splitOn 46, l ≠ []) :
    (n.splitOn 46).foldl appendLabel [] = n := by
  have hne : n.splitOn 46 ≠ [] := by
    unfold List.splitOn
    exact List.splitOnP_ne_nil _ _
  obtain ⟨l, ls, hcons⟩ := List.exists_cons_of_ne_nil hne
  have hl : l ≠ [] := h l (by rw [hcons]; simp)
  have hinter : [46].intercalate (n.splitOn 46) = n := List.intercalate_splitOn n 46
  rw [hcons] at hinter ⊢
  rw [List.foldl_cons]
  have hfirst : appendLabel [] l = l := by
    unfold appendLabel
    rw [if_neg (by simp)]
    simp
  rw [hfirst]
  rw [foldl_appendLabel_acc ls l hl]
  rw [intercalate_dot_eq ls l] at hinter
  exact hinter

theorem readName_name_piece (n : Bytes) (fuel : Nat) (buffer pre post : Bytes) (cursor : Nat)
    (hb : buffer = pre ++ nameWire n ++ post) (hc : cursor = pre.length)
    (hwf : wfName n) (hfuel : labelCount n < fuel) :
    Reader.readName fuel ⟨buffer, cursor⟩ []
      = .ok (n, ⟨buffer, cursor + (nameWire n).length⟩) := by
  have henc := readName_encLabels (n.splitOn 46) fuel buffer pre post [] cursor
    (by rw [hb]; rfl) hc hwf.2 hfuel
  rw [henc, name_join n (fun l hl => (hwf.2 l hl).1)]
  have hlen : (nameWire n).length = ((n.splitOn 46).map encLabel).flatten.length + 1 := by
    simp [nameWire]
  rw [hlen]


theorem typ_from_to (t : Typ) : Typ.fromValue t.toValue = t := by
  cases t <;> rfl

theorem typ_toValue_lt (t : Typ) : t.toValue < 65536 := by
  cases t <;> decide

theorem classWordOf_lt (rec : Record) : classWordOf rec < 65536 := by
  unfold classWordOf
  cases rec.cls <;> cases rec.unicast_response <;> simp [Class.toValue] <;> decide

theorem classWord_decode (c : Class) (u : Bool) :
    Class.fromValue ((if u then c.toValue ||| UNICAST_RESPONSE_MASK else c.toValue)
        &&& CLASS_MASK) = c ∧
    (((if u then c.toValue ||| UNICAST_RESPONSE_MASK else c.toValue)
        &&& UNICAST_RESPONSE_MASK) != 0) = u := by
  cases c <;> cases u <;> exact ⟨by decide, by decide⟩

theorem parseSection_piece (rec : Record) (fuel : Nat) (buffer pre post : Bytes)
    (cursor : Nat) (hb : buffer = pre ++ reqWire rec ++ post) (hc : cursor = pre.length)
    (hname : wfName rec.name) (hfuel : labelCount rec.name < fuel) :
    Record.parseSection fuel Record.new ⟨buffer, cursor⟩
      = .ok (⟨rec.name, [], rec.typ, rec.cls, rec.unicast_response, 0⟩,
             ⟨buffer, cursor + (reqWire rec).length⟩) := by
  unfold Record.parseSection
  rw [readName_name_piece rec.name fuel buffer pre
        (u16Wire rec.typ.toValue ++ u16Wire (classWordOf rec) ++ post) cursor
        (by simp [hb, reqWire, List.append_assoc]) hc hname hfuel]
  simp only []
  rw [readU16_piece buffer (pre ++ nameWire rec.name) (u16Wire (classWordOf rec) ++ post)
        (cursor + (nameWire rec.name).length) rec.typ.toValue
        (by simp [hb, reqWire, List.append_assoc]) (by simp [hc]) (typ_toValue_lt rec.typ)]
  simp only []
  rw [readU16_piece buffer (pre ++ nameWire rec.name ++ u16Wire rec.typ.toValue) post
        (cursor + (nameWire rec.name).length + 2) (classWordOf rec)
        (by simp [hb, reqWire, List.append_assoc]) (by simp [hc, u16Wire]; omega)
        (classWordOf_lt rec)]
  simp only []
  have hdec := classWord_decode rec.cls rec.unicast_response
  unfold classWordOf
  rw [hdec.1, hdec.2, typ_from_to]
  have hcur : cursor + (nameWire rec.name).length + 2 + 2 = cursor + (reqWire rec).length := by
    simp [reqWire, u16Wire]
    omega
  rw [hcur]
  rfl

theorem parseRequestRecord_piece (rec : Record) (fuel : Nat) (buffer pre post : Bytes)
    (cursor : Nat) (hb : buffer = pre ++ reqWire rec ++ post) (hc : cursor = pre.length)
    (hwf : wfQuestion rec) (hfuel : labelCount rec.name < fuel) :
    Record.parseRequestRecord fuel Record.new ⟨buffer, cursor⟩
      = .ok (rec, ⟨buffer, cursor + (reqWire rec).length⟩) := by
  unfold Record.parseRequestRecord
  rw [parseSection_piece rec fuel buffer pre post cursor hb hc hwf.1 hfuel]
  obtain ⟨name, data, typ, cls, ur, ttl⟩ := rec
  obtain ⟨hname, httl, hdata⟩ := hwf
  simp only [] at httl hdata
  rw [httl, hdata]

theorem parseResourceRecord_piece (rec : Record) (fuel : Nat) (buffer pre post : Bytes)
    (cursor : Nat) (hb : buffer = pre ++ respWire rec ++ post) (hc : cursor = pre.length)
    (hwf : wfResource rec) (hfuel : labelCount rec.name < fuel) :
    Record.parseResourceRecord fuel Record.new ⟨buffer, cursor⟩
      = .ok (rec, ⟨buffer, cursor + (respWire rec).length⟩) := by
  obtain ⟨hname, httl, hlen⟩ := hwf
  unfold Record.parseResourceRecord
  rw [parseSection_piece rec fuel buffer pre
        (u32Wire rec.ttl ++ u16Wire (rec.data.length % 65536) ++ rec.data ++ post) cursor
        (by simp [hb, respWire, List.append_assoc]) hc hname hfuel]
  simp only []
  rw [readU32_piece buffer (pre ++ reqWire rec)
        (u16Wire (rec.data.length % 65536) ++ rec.data ++ post)
        (cursor + (reqWire rec).length) rec.ttl
        (by simp [hb, respWire, List.append_assoc]) (by simp [hc]) httl]
  simp only []
  rw [readU16_piece buffer (pre ++ reqWire rec ++ u32Wire rec.ttl) (rec.data ++ post)
        (cursor + (reqWire rec).length + 4) (rec.data.length % 65536)
        (by simp [hb, respWire, List.append_assoc]) (by simp [hc, u32Wire]; omega)
        (by omega)]
  simp only []
  have hmod : rec.data.length % 65536 = rec.data.length := Nat.mod_eq_of_lt hlen
  by_cases hdz : 0 < rec.data.length % 65536
  · rw [if_pos hdz]
    rw [readBytes_piece buffer
          (pre ++ reqWire rec ++ u32Wire rec.ttl ++ u16Wire (rec.data.length % 65536))
          rec.data post
          (cursor + (reqWire rec).length + 4 + 2) (rec.data.length % 65536)
          (by simp [hb, respWire, List.append_assoc])
          (by simp [hc, u32Wire, u16Wire]; omega) hmod.symm]
    simp only []
    have hfin : cursor + (reqWire rec).length + 4 + 2 + rec.data.length % 65536
        = cursor + (respWire rec).length := by
      simp [respWire, u32Wire, u16Wire, List.length_append, hmod]
      omega
    rw [hfin]
  · rw [if_neg hdz]
    have hdata : rec.data = [] := List.length_eq_zero.mp (by omega)
    have hfin : cursor + (reqWire rec).length + 4 + 2 = cursor + (respWire rec).length := by
      simp [respWire, u32Wire, u16Wire, List.length_append, hdata]
      omega
    rw [hfin]
    obtain ⟨name, data, typ, cls, ur, ttl⟩ := rec
    simp only [] at hdata
    rw [hdata]


theorem parseRecords_req_piece :
    ∀ (rs : List Record) (fuel : Nat) (buffer pre post : Bytes) (cursor : Nat),
      buffer = pre ++ (rs.map reqWire).flatten ++ post → cursor = pre.length →
      (∀ r ∈ rs, wfQuestion r) → (∀ r ∈ rs, labelCount r.name < fuel) →
      parseRecords fuel rs.length false ⟨buffer, cursor⟩
        = .ok (rs, ⟨buffer, cursor + ((rs.map reqWire).flatten).length⟩) := by
  intro rs
  induction rs with
  | nil =>
    intro fuel buffer pre post cursor hb hc _ _
    simp [parseRecords]
  | cons rec rest ih =>
    intro fuel buffer pre post cursor hb hc hwf hfuel
    show parseRecords fuel (rest.length + 1) false ⟨buffer, cursor⟩ = _
    unfold parseRecords
    rw [if_neg (by simp)]
    rw [parseRequestRecord_piece rec fuel buffer pre ((rest.map reqWire).flatten ++ post) cursor
          (by simp [hb, List.append_assoc]) hc (hwf rec (by simp)) (hfuel rec (by simp))]
    simp only []
    rw [ih fuel buffer (pre ++ reqWire rec) post (cursor + (reqWire rec).length)
          (by simp [hb, List.append_assoc]) (by simp [hc])
          (fun r hr => hwf r (by simp [hr])) (fun r hr => hfuel r (by simp [hr]))]
    simp only []
    have hcur : cursor + (reqWire rec).length + ((rest.map reqWire).flatten).length
        = cursor + (((rec :: rest).map reqWire).flatten).length := by
      simp
      omega
    rw [hcur]

theorem parseRecords_resp_piece :
    ∀ (rs : List Record) (fuel : Nat) (buffer pre post : Bytes) (cursor : Nat),
      buffer = pre ++ (rs.map respWire).flatten ++ post → cursor = pre.length →
      (∀ r ∈ rs, wfResource r) → (∀ r ∈ rs, labelCount r.name < fuel) →
      parseRecords fuel rs.length true ⟨buffer, cursor⟩
        = .ok (rs, ⟨buffer, cursor + ((rs.map respWire).flatten).length⟩) := by
  intro rs
  induction rs with
  | nil =>
    intro fuel buffer pre post cursor hb hc _ _
    simp [parseRecords]
  | cons rec rest ih =>
    intro fuel buffer pre post cursor hb hc hwf hfuel
    show parseRecords fuel (rest.length + 1) true ⟨buffer, cursor⟩ = _
    unfold parseRecords
    rw [if_pos rfl]
    rw [parseResourceRecord_piece rec fuel buffer pre ((rest.map respWire).flatten ++ post)
          cursor (by simp [hb, List.append_assoc]) hc (hwf rec (by simp))
          (hfuel rec (by simp))]
    simp only []
    rw [ih fuel buffer (pre ++ respWire rec) post (cursor + (respWire rec).length)
          (by simp [hb, List.append_assoc]) (by simp [hc])
          (fun r hr => hwf r (by simp [hr])) (fun r hr => hfuel r (by simp [hr]))]
    simp only []
    have hcur : cursor + (respWire rec).length + ((rest.map respWire).flatten).length
        = cursor + (((rec :: rest).map respWire).flatten).length := by
      simp
      omega
    rw [hcur]


/-- C6 counterexample.  A message whose single question has the empty
name round-trips to a different message: `write_name` emits two zero
bytes for the empty name, parse consumes only one, and the question
comes back with type NONE and class NONE instead of PTR/IN. -/
theorem message_roundtrip_fails_on_empty_name :
    Message.fromBytes 4 msgEmptyName.toBytes ≠ .ok msgEmptyName ∧
    Message.fromBytes 4 msgEmptyName.toBytes =
      .ok { msgEmptyName with questions := [Record.new] } ∧
    emptyNameQuestion ≠ Record.new := by
  decide

/-- C6 (amended).  Serialize-then-parse is the identity on every
programmatically built message that is well-formed: 12-byte header,
counts in sync with section lengths, names made of nonempty ASCII
labels of at most 63 bytes, questions carrying the defaults the request
wire form omits (ttl 0, empty data), resource records with `u32` TTL
and `u16` RDATA length, and fuel exceeding the label count of every
name. -/
theorem message_roundtrip (m : Message) (fuel : Nat) (hwf : wfMessage m)
    (hfuel : ∀ r ∈ m.questions ++ m.answers ++ m.authorities ++ m.additionals,
      labelCount r.name < fuel) :
    Message.fromBytes fuel m.toBytes = .ok m := by
  obtain ⟨header, questions, answers, authorities, additionals⟩ := m
  obtain ⟨hhdr, hcounts, hq, hres⟩ := hwf
  simp only [] at hhdr hcounts hq hres hfuel
  unfold Message.fromBytes Message.parseBytes
  rw [toBytes_eq]
  simp only []
  rw [readBytes_piece
        (header ++ (questions.map reqWire).flatten ++ (answers.map respWire).flatten
          ++ (authorities.map respWire).flatten ++ (additionals.map respWire).flatten)
        [] header
        ((questions.map reqWire).flatten ++ (answers.map respWire).flatten
          ++ (authorities.map respWire).flatten ++ (additionals.map respWire).flatten)
        0 12 (by simp [List.append_assoc]) rfl hhdr]
  simp only [Message.new, List.nil_append]
  have hqd : (Message.mk header [] [] [] []).qdCount = questions.length := hcounts.1
  rw [hqd]
  rw [parseRecords_req_piece questions fuel _ header
        ((answers.map respWire).flatten ++ (authorities.map respWire).flatten
          ++ (additionals.map respWire).flatten)
        (0 + 12) (by simp [List.append_assoc]) (by omega)
        hq (fun r hrr => hfuel r (by simp [hrr]))]
  simp only [List.nil_append]
  have han : (Message.mk header questions [] [] []).anCount = answers.length :=
    hcounts.2.1
  rw [han]
  rw [parseRecords_resp_piece answers fuel _ (header ++ (questions.map reqWire).flatten)
        ((authorities.map respWire).flatten ++ (additionals.map respWire).flatten)
        (0 + 12 + ((questions.map reqWire).flatten).length)
        (by simp [List.append_assoc]) (by simp [hhdr])
        (fun r hrr => hres r (by simp [hrr])) (fun r hrr => hfuel r (by simp [hrr]))]
  simp only [List.nil_append]
  have hns : (Message.mk header questions answers [] []).nsCount
      = authorities.length := hcounts.2.2.1
  rw [hns]
  rw [parseRecords_resp_piece authorities fuel _
        (header ++ (questions.map reqWire).flatten ++ (answers.map respWire).flatten)
        ((additionals.map respWire).flatten)
        (0 + 12 + ((questions.map reqWire).flatten).length
          + ((answers.map respWire).flatten).length)
        (by simp [List.append_assoc]) (by simp [hhdr]; omega)
        (fun r hrr => hres r (by simp [hrr])) (fun r hrr => hfuel r (by simp [hrr]))]
  simp only [List.nil_append]
  have har : (Message.mk header questions answers authorities []).arCount
      = additionals.length := hcounts.2.2.2
  rw [har]
  rw [parseRecords_resp_piece additionals fuel _
        (header ++ (questions.map reqWire).flatten ++ (answers.map respWire).flatten
          ++ (authorities.map respWire).flatten)
        []
        (0 + 12 + ((questions.map reqWire).flatten).length
          + ((answers.map respWire).flatten).length
          + ((authorities.map respWire).flatten).length)
        (by simp [List.append_assoc]) (by simp [hhdr]; omega)
        (fun r hrr => hres r (by simp [hrr])) (fun r hrr => hfuel r (by simp [hrr]))]

/-- C6 witness: the round-trip theorem applied to a concrete two-record
message (question `"abc"` PTR IN; answer `"h1"` A IN, TTL 120, 4-byte
RDATA) with fuel 8. -/
theorem message_roundtrip_witness :
    Message.fromBytes 8 rtMessage.toBytes = .ok rtMessage :=
  message_roundtrip rtMessage 8 (by decide) (by decide)


end Mdns
